import Mathlib

/-!
Shallow embedding of the jra-api betting-ticket core:
  * `app/services/judgment_logic.py` (settlement engine and combination expander),
  * `app/services/ipat_service.py` (bet record normalizer and fingerprint),
  * `app/services/race_service.py` (per-race judgment driver).
Horse numbers are modelled as `Int` after the source's `int(x)` conversions
(`to_ints`); money amounts are `Int`; Python's floor division `//` is `Int.fdiv`.
-/

namespace JraApi

/-! ## Combination primitives (itertools.combinations / itertools.permutations) -/

/-- `itertools.combinations(l, k)`: all length-`k` subsequences of `l`,
in lexicographic order of the chosen index sets. -/
def combinations : Nat → List Int → List (List Int)
  | 0, _ => [[]]
  | _ + 1, [] => []
  | k + 1, x :: xs => (combinations k xs).map (fun t => x :: t) ++ combinations (k + 1) xs

/-- Each element of a list paired with the remaining elements (order kept),
enumerated in position order; auxiliary for `perms`. -/
def picks : List Int → List (Int × List Int)
  | [] => []
  | x :: xs => (x, xs) :: (picks xs).map (fun p => (p.1, x :: p.2))

/-- `itertools.permutations(l, k)`: all length-`k` sequences of distinct
positions of `l`, in lexicographic order of the index sequences. -/
def perms : Nat → List Int → List (List Int)
  | 0, _ => [[]]
  | k + 1, l => (picks l).flatMap (fun p => (perms k p.2).map (fun t => p.1 :: t))

/-- `itertools.product(*groups)`: Cartesian product, rightmost group varying fastest. -/
def cartesianProduct : List (List Int) → List (List Int)
  | [] => [[]]
  | g :: gs => g.flatMap (fun x => (cartesianProduct gs).map (fun t => x :: t))

/-! ## Data model of the settlement engine (`judgment_logic.py`) -/

/-- The `content` blob of a ticket, after the source's string→int conversions.
Mirrors `app.schemas.BetContent` (the `type`/`method` copies inside content are
unused by the judgment code and omitted). -/
structure BetContent where
  multi : Bool
  axis : List Int
  partners : List Int
  selections : List (List Int)
  positions : List Int
  deriving DecidableEq, Repr

/-- The fields of `app.schemas.Ticket` read by `JudgmentLogic.judge_ticket`. -/
structure Ticket where
  bet_type : String
  buy_type : String
  content : BetContent
  amount_per_point : Int
  deriving DecidableEq, Repr

/-- One entry of the official payout table (`app.schemas.PayoutItem`). -/
structure PayoutItem where
  horse : List Int
  money : Int
  deriving DecidableEq, Repr

/-- `app.schemas.PayoutData`: one optional list per bet-type code. -/
structure PayoutData where
  WIN : Option (List PayoutItem) := none
  PLACE : Option (List PayoutItem) := none
  BRACKET_QUINELLA : Option (List PayoutItem) := none
  QUINELLA : Option (List PayoutItem) := none
  QUINELLA_PLACE : Option (List PayoutItem) := none
  EXACTA : Option (List PayoutItem) := none
  TRIO : Option (List PayoutItem) := none
  TRIFECTA : Option (List PayoutItem) := none
  deriving DecidableEq, Repr

/-- `getattr(payout_data, bet_type, [])` followed by the code's falsiness check:
an unset (None) field and an unknown attribute both behave as the empty list. -/
def getPayoutItems (pd : PayoutData) (bt : String) : List PayoutItem :=
  if bt = "WIN" then pd.WIN.getD []
  else if bt = "PLACE" then pd.PLACE.getD []
  else if bt = "BRACKET_QUINELLA" then pd.BRACKET_QUINELLA.getD []
  else if bt = "QUINELLA" then pd.QUINELLA.getD []
  else if bt = "QUINELLA_PLACE" then pd.QUINELLA_PLACE.getD []
  else if bt = "EXACTA" then pd.EXACTA.getD []
  else if bt = "TRIO" then pd.TRIO.getD []
  else if bt = "TRIFECTA" then pd.TRIFECTA.getD []
  else []

/-- `JudgmentLogic._get_combination_r`. -/
def get_combination_r (bt : String) : Nat :=
  if bt = "WIN" ∨ bt = "PLACE" then 1
  else if bt = "BRACKET_QUINELLA" ∨ bt = "QUINELLA" ∨ bt = "QUINELLA_PLACE" ∨ bt = "EXACTA" then 2
  else if bt = "TRIO" ∨ bt = "TRIFECTA" then 3
  else 1

/-- `JudgmentLogic._expand_combinations`.  The BOX branch indexes
`selections[0]`; the claims never exercise an empty `selections` there, so the
lookup is totalized with `headD []`. -/
def expand_combinations (bt method : String) (c : BetContent) : List (List Int) :=
  if method = "BOX" then
    let horses := c.selections.headD []
    let r := get_combination_r bt
    if bt = "EXACTA" ∨ bt = "TRIFECTA" then perms r horses
    else combinations r horses
  else if method = "NAGASHI" then
    let r := get_combination_r bt
    if r < c.axis.length then []
    else
      let needed := r - c.axis.length
      (combinations needed c.partners).flatMap (fun pc =>
        let base := c.axis ++ pc
        if c.multi then
          if bt = "EXACTA" ∨ bt = "TRIFECTA" then perms r base
          else [base]
        else
          if bt = "EXACTA" then pc.map (fun p => c.axis ++ [p])
          else if bt = "TRIFECTA" then (perms pc.length pc).map (fun pp => c.axis ++ pp)
          else [base])
  else if method = "FORMATION" then cartesianProduct c.selections
  else c.selections

/-- Python `set(a) == set(b)`: the two lists carry the same set of elements. -/
def sameSet (a b : List Int) : Bool :=
  a.all (fun x => b.contains x) && b.all (fun x => a.contains x)

/-- `JudgmentLogic._is_hit`: does the official winning list match one of the
user's expanded combinations.  WIN/PLACE compare the whole lists; EXACTA and
TRIFECTA require order-exact equality; the rest compare as sets. -/
def is_hit (bt : String) (winning : List Int) (userCombs : List (List Int)) : Bool :=
  if bt = "WIN" ∨ bt = "PLACE" then
    userCombs.any (fun comb => winning = comb)
  else if bt = "EXACTA" ∨ bt = "TRIFECTA" then
    userCombs.any (fun comb => comb = winning)
  else
    userCombs.any (fun comb => sameSet comb winning)

/-- `JudgmentLogic._is_hit_nagashi_ordered`: positional judgment for a
fixed-position, non-multi NAGASHI ticket. -/
def is_hit_nagashi_ordered (c : BetContent) (winning : List Int) : Bool :=
  if c.positions.isEmpty || c.axis.length != c.positions.length then false
  else
    let stepA := (c.axis.zip c.positions).all (fun hp =>
      let idx := hp.2 - 1
      decide (0 ≤ idx) && decide (idx < winning.length) && winning.getD idx.toNat 0 == hp.1)
    if !stepA then false
    else
      let axisIdx := c.positions.map (fun p => p - 1)
      let remaining := ((List.range winning.length).filter
        (fun i => !(axisIdx.contains (Int.ofNat i)))).map (fun i => winning.getD i 0)
      remaining.all (fun h => c.partners.contains h)

/-- The `is_ordered_nagashi` guard of `JudgmentLogic.judge_ticket`. -/
def isOrderedNagashi (t : Ticket) : Bool :=
  t.buy_type == "NAGASHI" && !t.content.multi
    && (t.bet_type == "TRIFECTA" || t.bet_type == "EXACTA" || t.bet_type == "TAN")
    && !t.content.positions.isEmpty

/-- The dict-level body of `JudgmentLogic.judge_ticket`: the judgment the
function spells out when every `content.get(...)` is read as a dict access.
The accumulation loop over `payout_items` is rendered as a filter followed by
a sum; `result_1st` .. `result_3rd` are accepted but unused, exactly as in
the source.  Caution: as actually invoked (`race_service._process_hit_detection`
builds `Ticket(**t_dict)`, so `ticket.content` is a pydantic `BetContent`,
which has no `.get`), the source raises AttributeError on the first content
access and this body is reached only up to its early exits — see
`judge_ticket_run` below for the as-called behavior. -/
def judge_ticket (t : Ticket) (_result_1st _result_2nd _result_3rd : Int)
    (pd : PayoutData) : String × Int :=
  let payout_items := getPayoutItems pd t.bet_type
  if payout_items.isEmpty then ("LOSE", 0)
  else
    let isON := isOrderedNagashi t
    let userCombs := if isON then [] else expand_combinations t.bet_type t.buy_type t.content
    let hitItem : PayoutItem → Bool := fun item =>
      if isON then is_hit_nagashi_ordered t.content item.horse
      else is_hit t.bet_type item.horse userCombs
    let hits := payout_items.filter hitItem
    if 0 < hits.length then
      ("HIT", (hits.map (fun item => Int.fdiv (t.amount_per_point * item.money) 100)).sum)
    else ("LOSE", 0)

/-- `race_service._process_hit_detection` maps the engine's "HIT" verdict to
the stored status "WIN" (`status_to_update = "WIN" if judged_status == "HIT"`). -/
def settleStatus (s : String) : String :=
  if s = "HIT" then "WIN" else s

/-- The Python exception relevant here: `AttributeError`, raised by
`content.get(...)` because the pydantic `BetContent` has no `.get`. -/
inductive PyErr where
  | attributeError
  deriving DecidableEq, Repr

/-- `JudgmentLogic.judge_ticket` as invoked in production
(`race_service.py`: `Ticket(**t_dict)` coerces `content` to the pydantic
`BetContent`).  `payout_data` is a pydantic model and therefore always
truthy, so the `if not payout_data` exit never fires; an empty or unset
payout list returns ("LOSE", 0) before any content access; after that, a
NAGASHI ticket raises AttributeError at `content.get("multi", False)` in the
`is_ordered_nagashi` guard, and every other ticket raises at
`content.get("selections", [])` inside `_expand_combinations`.  `Except`
models the raise. -/
def judge_ticket_run (t : Ticket) (_result_1st _result_2nd _result_3rd : Int)
    (pd : PayoutData) : Except PyErr (String × Int) :=
  let payout_items := getPayoutItems pd t.bet_type
  if payout_items.isEmpty then Except.ok ("LOSE", 0)
  else if t.buy_type = "NAGASHI" then
    Except.error PyErr.attributeError
  else
    Except.error PyErr.attributeError

/-! ## Python string primitives used by the normalizer (`ipat_service.py`) -/

/-- Characters removed by `str.strip()` (the whitespace occurring in this
repository's data, including the ideographic space). -/
def pyWhitespace (c : Char) : Bool :=
  c = ' ' || c = '\t' || c = '\n' || c = '\x0d' || c = '\x0b' || c = '\x0c' || c = '　'

def pyStripList (cs : List Char) : List Char :=
  ((cs.dropWhile pyWhitespace).reverse.dropWhile pyWhitespace).reverse

def pyStrip (s : String) : String :=
  String.mk (pyStripList s.data)

/-- The `str.maketrans("０..９", "0..9")` table: full-width digits map to
half-width, everything else is unchanged. -/
def fwToHw (c : Char) : Char :=
  if '０' ≤ c && c ≤ '９' then Char.ofNat (c.toNat - 0xFF10 + 0x30) else c

/-- `str.isdigit` restricted to the digit repertoire this repository feeds it
(ASCII and full-width digits). -/
def pyIsDigit (c : Char) : Bool :=
  c.isDigit || ('０' ≤ c && c ≤ '９')

/-- `s.isdigit()`: non-empty and all digits. -/
def pyIsDigitStr (s : String) : Bool :=
  !s.data.isEmpty && s.data.all pyIsDigit

/-- `s.zfill(2)` for unsigned tokens: left-pad with ASCII zeros to width 2. -/
def zfill2 (s : String) : String :=
  if 2 ≤ s.length then s else String.mk (List.replicate (2 - s.length) '0') ++ s

def digitsToNat? (cs : List Char) : Option Nat :=
  if cs.isEmpty then none
  else if cs.all Char.isDigit then
    some (cs.foldl (fun acc c => acc * 10 + (c.toNat - 0x30)) 0)
  else none

/-- Python `int(s)` on a string: strip whitespace, optional sign, decimal
digits; `none` models the `ValueError` path. -/
def pyInt? (s : String) : Option Int :=
  match pyStripList s.data with
  | '-' :: rest => (digitsToNat? rest).map (fun n => -(n : Int))
  | '+' :: rest => (digitsToNat? rest).map (fun n => (n : Int))
  | cs => (digitsToNat? cs).map (fun n => (n : Int))

/-! ## JSON-ish values: the `content` blob handled by the normalizer -/

/-- The values occurring inside a ticket's `content` object: strings, ints,
bools and (nested) arrays.  The top-level object itself is `JObj`. -/
inductive JVal where
  | str (s : String)
  | num (n : Int)
  | bool (b : Bool)
  | arr (elems : List JVal)

mutual

def jvalDecEq : (a b : JVal) → Decidable (a = b)
  | .str a, .str b =>
      if h : a = b then isTrue (by rw [h])
      else isFalse (by intro hh; injection hh; exact h (by assumption))
  | .num a, .num b =>
      if h : a = b then isTrue (by rw [h])
      else isFalse (by intro hh; injection hh; exact h (by assumption))
  | .bool a, .bool b =>
      if h : a = b then isTrue (by rw [h])
      else isFalse (by intro hh; injection hh; exact h (by assumption))
  | .arr a, .arr b =>
      match jvalListDecEq a b with
      | isTrue h => isTrue (by rw [h])
      | isFalse h => isFalse (by intro hh; injection hh; exact h (by assumption))
  | .str _, .num _ => isFalse (by intro h; cases h)
  | .str _, .bool _ => isFalse (by intro h; cases h)
  | .str _, .arr _ => isFalse (by intro h; cases h)
  | .num _, .str _ => isFalse (by intro h; cases h)
  | .num _, .bool _ => isFalse (by intro h; cases h)
  | .num _, .arr _ => isFalse (by intro h; cases h)
  | .bool _, .str _ => isFalse (by intro h; cases h)
  | .bool _, .num _ => isFalse (by intro h; cases h)
  | .bool _, .arr _ => isFalse (by intro h; cases h)
  | .arr _, .str _ => isFalse (by intro h; cases h)
  | .arr _, .num _ => isFalse (by intro h; cases h)
  | .arr _, .bool _ => isFalse (by intro h; cases h)

def jvalListDecEq : (a b : List JVal) → Decidable (a = b)
  | [], [] => isTrue rfl
  | [], _ :: _ => isFalse (by intro h; cases h)
  | _ :: _, [] => isFalse (by intro h; cases h)
  | a :: as, b :: bs =>
      match jvalDecEq a b, jvalListDecEq as bs with
      | isTrue h1, isTrue h2 => isTrue (by rw [h1, h2])
      | isFalse h1, _ => isFalse (by intro hh; injection hh; exact h1 (by assumption))
      | isTrue _, isFalse h2 => isFalse (by intro hh; injection hh; exact h2 (by assumption))

end

instance : DecidableEq JVal := jvalDecEq

/-! Python compares strings lexicographically by code point; Lean's built-in
`String` order does not reduce in the kernel, so the comparison is spelled out
on the character lists. -/

/-- Code-point lexicographic strict order on character lists. -/
def charListLt : List Char → List Char → Bool
  | [], [] => false
  | [], _ :: _ => true
  | _ :: _, [] => false
  | a :: as, b :: bs => a < b || (a = b && charListLt as bs)

/-- Python `a <= b` on strings. -/
def strLeb (a b : String) : Bool := !(charListLt b.data a.data)

/-- The sorting relation used for Python's `sorted` on strings. -/
def strLeP (a b : String) : Prop := strLeb a b = true

instance : DecidableRel strLeP := fun _ _ => instDecidableEqBool _ _

/-- Ordering of dict entries by key, for `json.dumps(..., sort_keys=True)`. -/
def keyLe (p q : String × JVal) : Prop := strLeP p.1 q.1

instance : DecidableRel keyLe := fun _ _ => instDecidableEqBool _ _

/-- A Python dict as an association list in insertion order (keys unique). -/
abbrev JObj := List (String × JVal)

def jGet (o : JObj) (k : String) : Option JVal :=
  (o.find? (fun p => p.1 = k)).map (fun p => p.2)

def jHas (o : JObj) (k : String) : Bool :=
  o.any (fun p => p.1 = k)

/-- Assignment to an existing dict key keeps its position; a new key appends. -/
def jSet (o : JObj) (k : String) (v : JVal) : JObj :=
  if jHas o k then o.map (fun p => if p.1 = k then (k, v) else p) else o ++ [(k, v)]

/-- Python truthiness of `content.get(k)`. -/
def jTruthy : Option JVal → Bool
  | none => false
  | some (.str s) => s ≠ ""
  | some (.num n) => n ≠ 0
  | some (.bool b) => b
  | some (.arr l) => !l.isEmpty

/-- Extract the element list of a value expected to be an array
(the source assumes the `axis`/`partners`/`selections` values are lists). -/
def jElems : Option JVal → List JVal
  | some (.arr l) => l
  | _ => []

/-- Python `str(x)` for the values that reach `process_list`
(arrays never do for this repository's data). -/
def jvalToStr : JVal → String
  | .str s => s
  | .num n => toString n
  | .bool b => if b then "True" else "False"
  | .arr _ => ""

/-! ## The Bet Record Normalizer (`ipat_service.py`) -/

/-- One token step of `_normalize_horse_numbers.process_list`:
`s = str(x).strip()`, then zero-pad if the token is all digits. -/
def normTok (x : JVal) : String :=
  let s := pyStrip (jvalToStr x)
  if pyIsDigitStr s then zfill2 s else s

/-- `process_list(lst, sort)`: normalize every token, then (optionally) sort
the resulting strings in Python's lexicographic (code-point) order. -/
def process_list (sort : Bool) (l : List JVal) : List JVal :=
  if l.isEmpty then []
  else
    let normalized := l.map normTok
    ((if sort then List.insertionSort strLeP normalized
      else normalized).map JVal.str)

/-- `_normalize_horse_numbers`: pad (and, where allowed, sort) the horse-number
lists inside `content`.  `axis` is sorted only when `positions` is falsy. -/
def normalize_horse_numbers (c : JObj) : JObj :=
  let hasPositions := jTruthy (jGet c "positions")
  let c1 := if jHas c "axis" then
      jSet c "axis" (JVal.arr (process_list (!hasPositions) (jElems (jGet c "axis"))))
    else c
  let c2 := if jHas c1 "partners" then
      jSet c1 "partners" (JVal.arr (process_list true (jElems (jGet c1 "partners"))))
    else c1
  if jHas c2 "selections" then
    jSet c2 "selections" (JVal.arr ((jElems (jGet c2 "selections")).map
      (fun s => JVal.arr (process_list true (jElems (some s))))))
  else c2

/-! ## `json.dumps(..., sort_keys=True)` for the content blob.
The content strings are plain ASCII tokens, so no JSON escaping arises. -/

mutual

def jvalDump : JVal → String
  | .str s => "\"" ++ s ++ "\""
  | .num n => toString n
  | .bool b => if b then "true" else "false"
  | .arr l => "[" ++ jvalDumpList l ++ "]"

def jvalDumpList : List JVal → String
  | [] => ""
  | [x] => jvalDump x
  | x :: y :: xs => jvalDump x ++ ", " ++ jvalDumpList (y :: xs)

end

/-- Keys are serialized in sorted order (`sort_keys=True`), with json.dumps's
default separators. -/
def jobjDump (o : JObj) : String :=
  let sorted := List.insertionSort keyLe o
  "\x7b" ++ String.intercalate ", "
      (sorted.map (fun p => "\"" ++ p.1 ++ "\": " ++ jvalDump p.2)) ++ "\x7d"

/-- `_normalize_date`: drop the date separators, then strip. -/
def normalize_date (s : String) : String :=
  String.mk (pyStripList (s.data.filter
    (fun c => !(c = '/' || c = '-' || c = '年' || c = '月' || c = '日'))))

/-- `_normalize_receipt_no`: strip and convert full-width digits; no int
conversion (leading zeros kept). -/
def normalize_receipt_no : Option String → String
  | none => ""
  | some v => String.mk ((pyStripList v.data).map fwToHw)

/-- `_normalize_line_no`: strip, convert full-width digits, then absorb leading
zeros via `str(int(s))` when the token parses as an int. -/
def normalize_line_no : Option String → String
  | none => ""
  | some v =>
    let s := String.mk ((pyStripList v.data).map fwToHw)
    if s = "" then ""
    else match pyInt? s with
      | some n => toString n
      | none => s

/-- The fields of a raw scraped ticket record that feed the fingerprint
(`_map_ticket_to_db_format`).  A numeric `line_no` is carried as its decimal
string. -/
structure RawTicketRecord where
  race_date_str : String
  receipt_no : Option String
  line_no : Option String
  content : JObj

/-- The `unique_str` of `_map_ticket_to_db_format`:
`f"{date}-{receipt}-{line}-{json.dumps(normalized_content, sort_keys=True)}"`. -/
def uniqueStr (r : RawTicketRecord) : String :=
  normalize_date r.race_date_str ++ "-" ++ normalize_receipt_no r.receipt_no ++ "-"
    ++ normalize_line_no r.line_no ++ "-" ++ jobjDump (normalize_horse_numbers r.content)

/-- The source stores `hashlib.md5(unique_str.encode()).hexdigest()`.  md5 is a
fixed deterministic function, so two records receive the same fingerprint
whenever they produce the same `unique_str`; the fingerprint is modelled by
that pre-image. -/
def receipt_unique_id (r : RawTicketRecord) : String := uniqueStr r

/-- `total_points` derivation of `_map_ticket_to_db_format`: an unsupplied
value reads as 0; it is recomputed from cost only when `amount_per_point > 0`,
so the division is guarded and total. -/
def derive_total_points (total_points : Option Int) (total_cost amount_per_point : Int) : Int :=
  let tp := total_points.getD 0
  if tp = 0 ∧ 0 < amount_per_point then Int.fdiv total_cost amount_per_point else tp

/-! ## Per-race judgment driver (`race_service.py`) -/

/-- A stored ticket row: the judged fields around the bet itself. -/
structure TicketRow where
  ticket : Ticket
  status : String
  payout : Int
  deriving DecidableEq, Repr

/-- A `races` row as read back by `judge_existing_races`. -/
structure RaceRow where
  result_1st : Option String
  result_2nd : Option String
  result_3rd : Option String
  payout_data : Option PayoutData

def pyTruthyOptStr : Option String → Bool
  | none => false
  | some s => s ≠ ""

/-- The judgment step of `judge_existing_races` / `_process_hit_detection` for
one FINISHED race: skip when `result_1st`/`payout_data` are falsy, skip when a
result ordinal fails `int()`, otherwise judge every PENDING ticket.  The
judging branch is written with the dict-level `judge_ticket`; in the source
that branch raises AttributeError per ticket (see `judge_ticket_run`), so
only the skip paths reflect observed behavior. -/
def judge_finished_race (race : RaceRow) (tickets : List TicketRow) : List TicketRow :=
  if !(pyTruthyOptStr race.result_1st && race.payout_data.isSome) then tickets
  else
    match race.payout_data with
    | none => tickets
    | some pd =>
      match pyInt? (race.result_1st.getD ""), pyInt? (race.result_2nd.getD ""),
            pyInt? (race.result_3rd.getD "") with
      | some r1, some r2, some r3 =>
          tickets.map (fun tr =>
            if tr.status = "PENDING" then
              let res := judge_ticket tr.ticket r1 r2 r3 pd
              { tr with status := settleStatus res.1, payout := res.2 }
            else tr)
      | _, _, _ => tickets

/-! ## The known code tables -/

/-- The eight canonical bet-type codes (`app.constants.BET_TYPE_MAP` values /
the `PayoutData` fields). -/
def knownBetTypes : List String :=
  ["WIN", "PLACE", "BRACKET_QUINELLA", "QUINELLA", "QUINELLA_PLACE", "EXACTA", "TRIO", "TRIFECTA"]

/-- The four buy-method codes produced by the parsers. -/
def knownBuyMethods : List String :=
  ["NORMAL", "BOX", "FORMATION", "NAGASHI"]

/-! # Helper lemmas -/

/-! ## The string order used by Python's `sorted` -/

theorem charListLt_irrefl : ∀ a, charListLt a a = false
  | [] => rfl
  | c :: cs => by simp [charListLt, charListLt_irrefl cs]

theorem charListLt_asymm : ∀ a b, charListLt a b = true → charListLt b a = true → False
  | [], [], h, _ => by simp [charListLt] at h
  | [], _ :: _, _, h2 => by simp [charListLt] at h2
  | _ :: _, [], h, _ => by simp [charListLt] at h
  | a :: as, b :: bs, h1, h2 => by
      simp only [charListLt, Bool.or_eq_true, Bool.and_eq_true, decide_eq_true_eq] at h1 h2
      rcases h1 with h1 | ⟨hab, h1⟩
      · rcases h2 with h2 | ⟨hba, _⟩
        · exact absurd h2 (not_lt.mpr (le_of_lt h1))
        · rw [hba] at h1
          exact lt_irrefl a h1
      · rcases h2 with h2 | ⟨_, h2⟩
        · rw [hab] at h2
          exact lt_irrefl b h2
        · exact charListLt_asymm as bs h1 h2

theorem charListLt_trans : ∀ a b c, charListLt a b = true → charListLt b c = true →
    charListLt a c = true
  | [], _, _ :: _, _, _ => by simp [charListLt]
  | [], [], [], h1, _ => by simp [charListLt] at h1
  | [], _ :: _, [], _, h2 => by simp [charListLt] at h2
  | _ :: _, [], _, h1, _ => by simp [charListLt] at h1
  | _ :: _, _ :: _, [], _, h2 => by simp [charListLt] at h2
  | a :: as, b :: bs, c :: cs, h1, h2 => by
      simp only [charListLt, Bool.or_eq_true, Bool.and_eq_true, decide_eq_true_eq] at h1 h2 ⊢
      rcases h1 with h1 | ⟨hab, h1⟩
      · rcases h2 with h2 | ⟨hbc, _⟩
        · exact Or.inl (lt_trans h1 h2)
        · rw [hbc] at h1
          exact Or.inl h1
      · rcases h2 with h2 | ⟨hbc, h2⟩
        · rw [hab]
          exact Or.inl h2
        · rw [hab, hbc]
          exact Or.inr ⟨rfl, charListLt_trans as bs cs h1 h2⟩

theorem charListLt_conn : ∀ a b, charListLt a b = false → charListLt b a = false → a = b
  | [], [], _, _ => rfl
  | [], _ :: _, h1, _ => by simp [charListLt] at h1
  | _ :: _, [], _, h2 => by simp [charListLt] at h2
  | a :: as, b :: bs, h1, h2 => by
      simp only [charListLt, Bool.or_eq_false_iff, Bool.and_eq_false_iff,
        decide_eq_false_iff_not, not_lt] at h1 h2
      have hab : a = b := le_antisymm h2.1 h1.1
      subst hab
      rcases h1.2 with h1h | h1h
      · exact absurd rfl h1h
      · rcases h2.2 with h2h | h2h
        · exact absurd rfl h2h
        · rw [charListLt_conn as bs h1h h2h]

theorem strLeb_total (a b : String) : strLeb a b = true ∨ strLeb b a = true := by
  cases h1 : charListLt b.data a.data with
  | false => exact Or.inl (by simp [strLeb, h1])
  | true =>
    cases h2 : charListLt a.data b.data with
    | false => exact Or.inr (by simp [strLeb, h2])
    | true => exact absurd (charListLt_asymm _ _ h2 h1) (fun h => h)

theorem strLeb_trans (a b c : String) (h1 : strLeb a b = true) (h2 : strLeb b c = true) :
    strLeb a c = true := by
  simp only [strLeb, Bool.not_eq_true'] at h1 h2 ⊢
  cases h3 : charListLt c.data a.data with
  | false => rfl
  | true =>
    exfalso
    cases h4 : charListLt b.data c.data with
    | false =>
      have hcb : c.data = b.data := charListLt_conn _ _ h2 h4
      rw [hcb] at h3
      simp [h3] at h1
    | true =>
      have hba : charListLt b.data a.data = true := charListLt_trans _ _ _ h4 h3
      simp [hba] at h1

instance : IsTotal String strLeP := ⟨strLeb_total⟩

instance : IsTrans String strLeP := ⟨strLeb_trans⟩

instance : IsTotal (String × JVal) keyLe := ⟨fun p q => strLeb_total p.1 q.1⟩

instance : IsTrans (String × JVal) keyLe := ⟨fun _ _ _ => strLeb_trans _ _ _⟩

/-- Strings with equal character data are equal. -/
theorem str_eq_of_data_eq : ∀ {a b : String}, a.data = b.data → a = b
  | ⟨_⟩, ⟨_⟩, h => congrArg String.mk h

/-- Mutually non-less strings (in the Python order) are equal. -/
theorem strLeb_antisymm {a b : String} (h1 : strLeb a b = true) (h2 : strLeb b a = true) :
    a = b := by
  simp only [strLeb, Bool.not_eq_true'] at h1 h2
  exact str_eq_of_data_eq (charListLt_conn _ _ h2 h1)

/-- Strict version of the key order (used only to prove sorting is unique on
duplicate-free key sets). -/
def keyLt (p q : String × JVal) : Prop := keyLe p q ∧ p.1 ≠ q.1

instance : IsAntisymm (String × JVal) keyLt :=
  ⟨fun _ _ h1 h2 => (h1.2 (strLeb_antisymm h1.1 h2.1)).elim⟩

theorem sorted_keyLt {s : JObj} (hs : List.Sorted keyLe s)
    (hnd : (s.map Prod.fst).Nodup) : List.Pairwise keyLt s := by
  have hne : List.Pairwise (fun p q : String × JVal => p.1 ≠ q.1) s :=
    List.pairwise_map.mp hnd
  exact hs.and hne

/-- Sorting by key is insensitive to the input order when the keys are
duplicate-free: the serialization order of a Python dict's entries under
`sort_keys=True` is a function of the entry set alone. -/
theorem insertionSort_eq_of_perm {l1 l2 : JObj} (hp : l1.Perm l2)
    (hnd : (l1.map Prod.fst).Nodup) :
    List.insertionSort keyLe l1 = List.insertionSort keyLe l2 := by
  have p1 := List.perm_insertionSort keyLe l1
  have p2 := List.perm_insertionSort keyLe l2
  have hperm : (List.insertionSort keyLe l1).Perm (List.insertionSort keyLe l2) :=
    p1.trans (hp.trans p2.symm)
  have hnd1 : ((List.insertionSort keyLe l1).map Prod.fst).Nodup :=
    ((p1.map Prod.fst).nodup_iff).mpr hnd
  have hnd2 : ((List.insertionSort keyLe l2).map Prod.fst).Nodup :=
    ((hperm.map Prod.fst).nodup_iff).mp hnd1
  exact List.eq_of_perm_of_sorted hperm
    (sorted_keyLt (List.sorted_insertionSort keyLe l1) hnd1)
    (sorted_keyLt (List.sorted_insertionSort keyLe l2) hnd2)

/-! ## Counting lemmas for the expander -/

theorem picks_length : ∀ l : List Int, (picks l).length = l.length
  | [] => rfl
  | x :: xs => by simp [picks, picks_length xs]

theorem picks_rest_length : ∀ (l : List Int) (p : Int × List Int), p ∈ picks l →
    p.2.length + 1 = l.length
  | [], p, h => by simp [picks] at h
  | x :: xs, p, h => by
      simp only [picks, List.mem_cons, List.mem_map] at h
      rcases h with rfl | ⟨q, hq, rfl⟩
      · simp
      · have := picks_rest_length xs q hq
        simp only [List.length_cons]
        omega

theorem perms_length : ∀ (k : Nat) (l : List Int),
    (perms k l).length = l.length.descFactorial k
  | 0, l => by simp [perms]
  | k + 1, [] => by simp [perms, picks, Nat.descFactorial]
  | k + 1, x :: xs => by
      have hconst : ∀ p ∈ picks (x :: xs),
          (List.length ∘ fun p : Int × List Int =>
            (perms k p.2).map (fun t => p.1 :: t)) p = xs.length.descFactorial k := by
        intro p hp
        have hl : p.2.length + 1 = (x :: xs).length := picks_rest_length _ p hp
        have hx : p.2.length = xs.length := by
          simp only [List.length_cons] at hl
          omega
        simp [Function.comp, List.length_map, perms_length k p.2, hx]
      simp only [perms, List.length_flatMap]
      rw [List.map_congr_left hconst]
      simp only [List.map_const', List.sum_replicate, smul_eq_mul, picks_length,
        List.length_cons, Nat.succ_descFactorial_succ]

theorem combinations_length : ∀ (k : Nat) (l : List Int),
    (combinations k l).length = l.length.choose k
  | 0, l => by simp [combinations]
  | k + 1, [] => by simp [combinations]
  | k + 1, x :: xs => by
      simp [combinations, combinations_length k xs, combinations_length (k + 1) xs,
        Nat.choose_succ_succ]

theorem descFactorial_three (n : Nat) : n.descFactorial 3 = n * (n - 1) * (n - 2) := by
  rw [Nat.descFactorial_succ, Nat.descFactorial_succ, Nat.descFactorial_succ,
    Nat.descFactorial_zero]
  simp only [Nat.sub_zero, mul_one]
  ring

theorem getPayoutItems_unknown (pd : PayoutData) (bt : String) (h : bt ∉ knownBetTypes) :
    getPayoutItems pd bt = [] := by
  simp only [knownBetTypes, List.mem_cons, List.not_mem_nil, or_false, not_or] at h
  obtain ⟨h1, h2, h3, h4, h5, h6, h7, h8⟩ := h
  simp [getPayoutItems, h1, h2, h3, h4, h5, h6, h7, h8]

/-! ## Membership and shape lemmas for the NAGASHI expansion (claim C4) -/

theorem flatMap_sing {α β : Type} (l : List α) (g : α → β) :
    (l.flatMap fun x => [g x]) = l.map g := by
  induction l with
  | nil => rfl
  | cons x xs ih => simp [ih]

theorem mem_combinations : ∀ (k : Nat) (l S : List Int),
    S ∈ combinations k l ↔ S.Sublist l ∧ S.length = k
  | 0, l, S => by
      simp only [combinations, List.mem_singleton]
      constructor
      · rintro rfl
        exact ⟨List.nil_sublist l, rfl⟩
      · rintro ⟨_, hl⟩
        exact List.length_eq_zero.mp hl
  | k + 1, [], S => by
      simp only [combinations, List.not_mem_nil, false_iff, not_and]
      intro hs
      have h0 : S = [] := List.sublist_nil.mp hs
      subst h0
      simp
  | k + 1, x :: xs, S => by
      simp only [combinations, List.mem_append, List.mem_map]
      constructor
      · rintro (⟨t, ht, rfl⟩ | h)
        · obtain ⟨hsub, hlen⟩ := (mem_combinations k xs t).mp ht
          exact ⟨List.cons_sublist_cons.mpr hsub, by simp [hlen]⟩
        · obtain ⟨hsub, hlen⟩ := (mem_combinations (k + 1) xs S).mp h
          exact ⟨hsub.cons x, hlen⟩
      · rintro ⟨hs, hl⟩
        rcases List.sublist_cons_iff.mp hs with h | ⟨r, rfl, hr⟩
        · exact Or.inr ((mem_combinations (k + 1) xs S).mpr ⟨h, hl⟩)
        · refine Or.inl ⟨r, (mem_combinations k xs r).mpr ⟨hr, ?_⟩, rfl⟩
          simpa using hl

theorem combinations_one : ∀ l : List Int, combinations 1 l = l.map (fun x => [x])
  | [] => rfl
  | x :: xs => by simp [combinations, combinations_one xs]

theorem pair_sublist_of_mem : ∀ (l : List Int) (a b : Int), a ∈ l → b ∈ l → a ≠ b →
    ([a, b].Sublist l) ∨ ([b, a].Sublist l)
  | [], a, b, ha, _, _ => absurd ha (List.not_mem_nil a)
  | x :: xs, a, b, ha, hb, hne => by
      rcases List.mem_cons.mp ha with rfl | ha2
      · have hb2 : b ∈ xs := by
          rcases List.mem_cons.mp hb with rfl | hb2
          · exact absurd rfl hne
          · exact hb2
        exact Or.inl (List.cons_sublist_cons.mpr (List.singleton_sublist.mpr hb2))
      · rcases List.mem_cons.mp hb with rfl | hb2
        · exact Or.inr (List.cons_sublist_cons.mpr (List.singleton_sublist.mpr ha2))
        · rcases pair_sublist_of_mem xs a b ha2 hb2 hne with h | h
          · exact Or.inl (h.cons x)
          · exact Or.inr (h.cons x)

theorem perms_pair (p q : Int) : perms ([p, q].length) [p, q] = [[p, q], [q, p]] := rfl

/-- The NAGASHI branch of `_expand_combinations`, spelled out. -/
theorem expand_nagashi_def (bt : String) (multi : Bool) (axis partners : List Int)
    (sel : List (List Int)) (pos : List Int) :
    expand_combinations bt "NAGASHI" ⟨multi, axis, partners, sel, pos⟩ =
      (if get_combination_r bt < axis.length then []
       else (combinations (get_combination_r bt - axis.length) partners).flatMap (fun pc =>
         if multi then
           (if bt = "EXACTA" ∨ bt = "TRIFECTA" then perms (get_combination_r bt) (axis ++ pc)
            else [axis ++ pc])
         else
           (if bt = "EXACTA" then pc.map (fun p => axis ++ [p])
            else if bt = "TRIFECTA" then (perms pc.length pc).map (fun pp => axis ++ pp)
            else [axis ++ pc]))) := rfl

theorem expand_nagashi_unordered (bt : String) (axis partners : List Int)
    (sel : List (List Int)) (h1 : bt ≠ "EXACTA") (h2 : bt ≠ "TRIFECTA")
    (hle : axis.length ≤ get_combination_r bt) :
    expand_combinations bt "NAGASHI" ⟨false, axis, partners, sel, []⟩ =
      (combinations (get_combination_r bt - axis.length) partners).map
        (fun S => axis ++ S) := by
  have hguard : ¬ get_combination_r bt < axis.length := not_lt.mpr hle
  simp [expand_combinations, hguard, h1, h2, flatMap_sing]

theorem expand_nagashi_exacta_one (a : Int) (partners : List Int)
    (sel : List (List Int)) :
    expand_combinations "EXACTA" "NAGASHI" ⟨false, [a], partners, sel, []⟩ =
      partners.map (fun p => [a, p]) := by
  simp [expand_combinations, get_combination_r, combinations_one, List.flatMap_map,
    flatMap_sing]

theorem expand_nagashi_trifecta_two (a b : Int) (partners : List Int)
    (sel : List (List Int)) :
    expand_combinations "TRIFECTA" "NAGASHI" ⟨false, [a, b], partners, sel, []⟩ =
      partners.map (fun p => [a, b, p]) := by
  simp [expand_combinations, get_combination_r, combinations_one, List.flatMap_map,
    perms, picks, flatMap_sing]

theorem expand_nagashi_trifecta_one_mem (a : Int) (partners : List Int)
    (sel : List (List Int)) (hnd : partners.Nodup) (comb : List Int) :
    comb ∈ expand_combinations "TRIFECTA" "NAGASHI" ⟨false, [a], partners, sel, []⟩ ↔
      ∃ p ∈ partners, ∃ q ∈ partners, p ≠ q ∧ comb = [a, p, q] := by
  have hexp : expand_combinations "TRIFECTA" "NAGASHI" ⟨false, [a], partners, sel, []⟩ =
      (combinations 2 partners).flatMap
        (fun pc => (perms pc.length pc).map (fun pp => [a] ++ pp)) := by
    simp [expand_combinations, get_combination_r]
  rw [hexp]
  simp only [List.mem_flatMap, List.mem_map]
  constructor
  · rintro ⟨pc, hpc, pp, hpp, rfl⟩
    obtain ⟨hsub, hlen⟩ := (mem_combinations 2 partners pc).mp hpc
    match pc, hlen with
    | [p, q], _ =>
      have hp : p ∈ partners := hsub.subset (by simp)
      have hq : q ∈ partners := hsub.subset (by simp)
      have hne : p ≠ q := by
        have hnd2 : ([p, q] : List Int).Nodup := List.Nodup.sublist hsub hnd
        simp at hnd2
        exact hnd2
      rw [perms_pair] at hpp
      rcases List.mem_cons.mp hpp with rfl | hpp2
      · exact ⟨p, hp, q, hq, hne, rfl⟩
      · rcases List.mem_cons.mp hpp2 with rfl | h0
        · exact ⟨q, hq, p, hp, Ne.symm hne, rfl⟩
        · exact absurd h0 (List.not_mem_nil pp)
  · rintro ⟨p, hp, q, hq, hne, rfl⟩
    rcases pair_sublist_of_mem partners p q hp hq hne with hs | hs
    · exact ⟨[p, q], (mem_combinations 2 partners [p, q]).mpr ⟨hs, rfl⟩,
        [p, q], by rw [perms_pair]; simp, rfl⟩
    · exact ⟨[q, p], (mem_combinations 2 partners [q, p]).mpr ⟨hs, rfl⟩,
        [p, q], by rw [perms_pair]; simp, rfl⟩

theorem expand_nagashi_includes_axis (bt : String) (axis partners : List Int)
    (sel : List (List Int)) (pos : List Int) (comb : List Int)
    (hcomb : comb ∈ expand_combinations bt "NAGASHI" ⟨false, axis, partners, sel, pos⟩) :
    ∀ a ∈ axis, a ∈ comb := by
  intro a ha
  rw [expand_nagashi_def] at hcomb
  by_cases hg : get_combination_r bt < axis.length
  · rw [if_pos hg] at hcomb
    cases hcomb
  · rw [if_neg hg] at hcomb
    simp only [Bool.false_eq_true, if_false, List.mem_flatMap] at hcomb
    obtain ⟨pc, hpc, hbody⟩ := hcomb
    by_cases he : bt = "EXACTA"
    · rw [he] at hbody
      simp at hbody
      obtain ⟨p, hp, rfl⟩ := hbody
      exact List.mem_append_left _ ha
    · by_cases ht : bt = "TRIFECTA"
      · rw [ht] at hbody
        simp at hbody
        obtain ⟨pp, hpp, rfl⟩ := hbody
        exact List.mem_append_left _ ha
      · simp [he, ht] at hbody
        subst hbody
        exact List.mem_append_left _ ha



/-! ## Dict-update lemmas for the normalizer (claim C8) -/

theorem fst_replace (p : String × JVal) (k : String) (v : JVal) :
    (if p.1 = k then (k, v) else p).1 = p.1 := by
  by_cases h : p.1 = k
  · rw [if_pos h, h]
  · rw [if_neg h]

theorem jGet_cons_self (p : String × JVal) (t : JObj) (k : String) (h : p.1 = k) :
    jGet (p :: t) k = some p.2 := by
  unfold jGet
  rw [List.find?_cons_of_pos _ (by simpa using h)]
  rfl

theorem jGet_cons_ne (p : String × JVal) (t : JObj) (k : String) (h : ¬ p.1 = k) :
    jGet (p :: t) k = jGet t k := by
  unfold jGet
  rw [List.find?_cons_of_neg _ (by simpa using h)]

theorem jHas_jSet (o : JObj) (k : String) (v : JVal) (h : jHas o k = true) (k' : String) :
    jHas (jSet o k v) k' = jHas o k' := by
  unfold jSet
  rw [if_pos h]
  unfold jHas
  rw [List.any_map]
  congr 1
  funext p
  simp [Function.comp, fst_replace]

theorem jHas_tail {p : String × JVal} {t : JObj} {k : String} (hp : ¬ p.1 = k)
    (h : jHas (p :: t) k = true) : jHas t k = true := by
  simp only [jHas, List.any_cons, Bool.or_eq_true, decide_eq_true_eq] at h
  rcases h with h | h
  · exact absurd h hp
  · exact h

theorem jGet_jSet_self : ∀ (o : JObj) (k : String) (v : JVal), jHas o k = true →
    jGet (jSet o k v) k = some v
  | [], k, v, h => by simp [jHas] at h
  | p :: t, k, v, h => by
      unfold jSet
      rw [if_pos h, List.map_cons]
      by_cases hp : p.1 = k
      · rw [if_pos hp]
        exact jGet_cons_self _ _ _ rfl
      · rw [if_neg hp, jGet_cons_ne _ _ _ hp]
        have ht : jHas t k = true := jHas_tail hp h
        have ih := jGet_jSet_self t k v ht
        unfold jSet at ih
        rw [if_pos ht] at ih
        exact ih

theorem jGet_jSet_ne : ∀ (o : JObj) (k : String) (v : JVal) (k' : String), k' ≠ k →
    jGet (jSet o k v) k' = jGet o k'
  | [], k, v, k', hne => by
      unfold jSet
      rw [if_neg (by simp [jHas]), List.nil_append]
      exact jGet_cons_ne _ _ _ (fun hh => hne hh.symm)
  | p :: t, k, v, k', hne => by
      unfold jSet
      by_cases h : jHas (p :: t) k = true
      · rw [if_pos h, List.map_cons]
        by_cases hp : p.1 = k
        · rw [if_pos hp, jGet_cons_ne _ _ _ (fun hh => hne hh.symm),
            jGet_cons_ne p t k' (by rw [hp]; exact fun hh => hne hh.symm)]
          by_cases ht : jHas t k = true
          · have ih := jGet_jSet_ne t k v k' hne
            unfold jSet at ih
            rw [if_pos ht] at ih
            exact ih
          · have hid : t.map (fun q => if q.1 = k then (k, v) else q) = t := by
              conv_rhs => rw [← List.map_id t]
              apply List.map_congr_left
              intro q hq
              rw [if_neg ?_]
              · rfl
              · intro hqk
                apply ht
                simp only [jHas, List.any_eq_true, decide_eq_true_eq]
                exact ⟨q, hq, hqk⟩
            rw [hid]
        · rw [if_neg hp]
          by_cases hpk : p.1 = k'
          · rw [jGet_cons_self _ _ _ hpk, jGet_cons_self p t k' hpk]
          · rw [jGet_cons_ne _ _ _ hpk, jGet_cons_ne p t k' hpk]
            have ht : jHas t k = true := jHas_tail hp h
            have ih := jGet_jSet_ne t k v k' hne
            unfold jSet at ih
            rw [if_pos ht] at ih
            exact ih
      · rw [if_neg h, List.cons_append]
        by_cases hpk : p.1 = k'
        · rw [jGet_cons_self _ _ _ hpk, jGet_cons_self p t k' hpk]
        · rw [jGet_cons_ne _ _ _ hpk, jGet_cons_ne p t k' hpk]
          have ht : ¬ jHas t k = true := by
            intro hh
            apply h
            simp only [jHas, List.any_cons, Bool.or_eq_true]
            right
            exact hh
          have ih := jGet_jSet_ne t k v k' hne
          unfold jSet at ih
          rw [if_neg ht] at ih
          exact ih

/-! ## What the normalizer stores under each key (claim C8) -/

theorem normalize_axis_get (c : JObj) (h : jHas c "axis" = true) :
    jGet (normalize_horse_numbers c) "axis" =
      some (JVal.arr (process_list (!jTruthy (jGet c "positions"))
        (jElems (jGet c "axis")))) := by
  simp only [normalize_horse_numbers]
  by_cases hp : jHas c "partners" = true <;>
    by_cases hs : jHas c "selections" = true <;>
      simp [h, hp, hs, jHas_jSet, jGet_jSet_self, jGet_jSet_ne]

theorem normalize_partners_get (c : JObj) (h : jHas c "partners" = true) :
    jGet (normalize_horse_numbers c) "partners" =
      some (JVal.arr (process_list true (jElems (jGet c "partners")))) := by
  simp only [normalize_horse_numbers]
  by_cases ha : jHas c "axis" = true <;>
    by_cases hs : jHas c "selections" = true <;>
      simp [h, ha, hs, jHas_jSet, jGet_jSet_self, jGet_jSet_ne]

theorem normalize_selections_get (c : JObj) (h : jHas c "selections" = true) :
    jGet (normalize_horse_numbers c) "selections" =
      some (JVal.arr ((jElems (jGet c "selections")).map
        (fun s => JVal.arr (process_list true (jElems (some s)))))) := by
  simp only [normalize_horse_numbers]
  by_cases ha : jHas c "axis" = true <;> by_cases hp : jHas c "partners" = true
  all_goals simp [h, ha, hp, jHas_jSet, jGet_jSet_self, jGet_jSet_ne]
  all_goals exact jGet_jSet_self _ _ _ (by simp [h, ha, hp, jHas_jSet])


/-! ## Shape of `process_list` output (claim C8) -/

theorem process_list_eq (sort : Bool) (l : List JVal) :
    process_list sort l =
      ((if sort then List.insertionSort strLeP (l.map normTok)
        else l.map normTok).map JVal.str) := by
  unfold process_list
  by_cases h : l.isEmpty = true
  · have h0 : l = [] := List.isEmpty_iff.mp h
    subst h0
    cases sort <;> simp [List.insertionSort]
  · rw [if_neg h]

theorem process_list_nosort (l : List JVal) :
    process_list false l = (l.map normTok).map JVal.str := by
  rw [process_list_eq]
  simp

theorem process_list_sorted_perm (l : List JVal) :
    ∃ ls : List String, process_list true l = ls.map JVal.str
      ∧ List.Sorted strLeP ls ∧ ls.Perm (l.map normTok) := by
  refine ⟨List.insertionSort strLeP (l.map normTok), ?_, ?_, ?_⟩
  · rw [process_list_eq]
    simp
  · exact List.sorted_insertionSort strLeP (l.map normTok)
  · exact List.perm_insertionSort strLeP (l.map normTok)

theorem mem_process_list {sort : Bool} {l : List JVal} {v : JVal}
    (hv : v ∈ process_list sort l) : ∃ x ∈ l, v = JVal.str (normTok x) := by
  rw [process_list_eq] at hv
  obtain ⟨s, hs, rfl⟩ := List.mem_map.mp hv
  have hs2 : s ∈ l.map normTok := by
    cases sort with
    | false => simpa using hs
    | true =>
      refine ((List.perm_insertionSort strLeP (l.map normTok)).mem_iff).mp ?_
      simpa using hs
  obtain ⟨x, hx, rfl⟩ := List.mem_map.mp hs2
  exact ⟨x, hx, rfl⟩

theorem zfill2_min_len (s : String) : 2 ≤ (zfill2 s).length := by
  unfold zfill2
  by_cases h : 2 ≤ s.length
  · rw [if_pos h]
    exact h
  · rw [if_neg h]
    rw [String.length_append]
    have hmk : (String.mk (List.replicate (2 - s.length) '0')).length
        = 2 - s.length := by
      rw [String.length_mk, List.length_replicate]
    omega

theorem normTok_digit_min_len (x : JVal) (h : pyIsDigitStr (normTok x) = true) :
    2 ≤ (normTok x).length := by
  unfold normTok at h ⊢
  by_cases hd : pyIsDigitStr (pyStrip (jvalToStr x)) = true
  · rw [if_pos hd] at h ⊢
    exact zfill2_min_len _
  · rw [if_neg hd] at h ⊢
    exact absurd h hd


/-! # Claim theorems -/


/-- Claim C2: two raw ticket records that describe the same bet — the same
normalized date, receipt number and line number, and whose normalized content
objects carry the same key/value bindings (in any field-insertion order, with
duplicate-free keys) — receive the same fingerprint (`receipt_unique_id`).
Horse-number zero-padding, full-width digits and leading line-number zeros are
all absorbed by the normalizations on the left of these hypotheses, as the
witness demonstrates on concrete records. -/
theorem C2_fingerprint_equivalence (r1 r2 : RawTicketRecord)
    (hdate : normalize_date r1.race_date_str = normalize_date r2.race_date_str)
    (hrec : normalize_receipt_no r1.receipt_no = normalize_receipt_no r2.receipt_no)
    (hline : normalize_line_no r1.line_no = normalize_line_no r2.line_no)
    (hperm : (normalize_horse_numbers r1.content).Perm (normalize_horse_numbers r2.content))
    (hkeys : ((normalize_horse_numbers r1.content).map Prod.fst).Nodup) :
    receipt_unique_id r1 = receipt_unique_id r2 := by
  unfold receipt_unique_id uniqueStr
  rw [hdate, hrec, hline]
  have hdump : jobjDump (normalize_horse_numbers r1.content)
      = jobjDump (normalize_horse_numbers r2.content) := by
    unfold jobjDump
    rw [insertionSort_eq_of_perm hperm hkeys]
  rw [hdump]

/-- Witness for C2: one record with unpadded horse numbers, a full-width
receipt number, a zero-padded line number and one field order; the other
padded, half-width, unpadded and permuted — the fingerprints coincide. -/
theorem C2_fingerprint_equivalence_witness :
    receipt_unique_id ⟨"2023/12/24", some "１２３４５", some "01",
      [("type", JVal.str "QUINELLA"), ("method", JVal.str "NAGASHI"),
       ("multi", JVal.bool false), ("axis", JVal.arr [JVal.str "1"]),
       ("partners", JVal.arr [JVal.str "3", JVal.str "2"]),
       ("selections", JVal.arr []), ("positions", JVal.arr [])]⟩ =
    receipt_unique_id ⟨"20231224", some "12345", some "1",
      [("axis", JVal.arr [JVal.str "01"]),
       ("partners", JVal.arr [JVal.str "02", JVal.str "03"]),
       ("multi", JVal.bool false), ("positions", JVal.arr []),
       ("selections", JVal.arr []), ("type", JVal.str "QUINELLA"),
       ("method", JVal.str "NAGASHI")]⟩ :=
  C2_fingerprint_equivalence _ _ (by decide) (by decide) (by decide) (by decide) (by decide)

/-- Claim C4: for a NAGASHI ticket with empty positions and multi=false,
expansion always includes the axis horses and fills the remaining
r − |axis| slots from partners: for unordered bet types the produced
combinations are exactly axis ++ S for every size-(r − |axis|) combination S
drawn from partners (and membership in `combinations` is exactly being a
subsequence of `partners` of that size); for EXACTA with one axis horse they
are exactly (axis, p), one per partner; for TRIFECTA with one axis horse the
axis is fixed in slot 1 and the other two slots range over every ordered pair
of distinct partners; with two axis horses their order is kept in slots 1–2
and slot 3 ranges over every partner. -/
theorem C4_nagashi_expansion :
    (∀ (bt : String) (axis partners : List Int) (sel : List (List Int)),
        bt ≠ "EXACTA" → bt ≠ "TRIFECTA" → axis.length ≤ get_combination_r bt →
        expand_combinations bt "NAGASHI" ⟨false, axis, partners, sel, []⟩ =
          (combinations (get_combination_r bt - axis.length) partners).map
            (fun S => axis ++ S))
    ∧ (∀ (k : Nat) (partners S : List Int),
        S ∈ combinations k partners ↔ S.Sublist partners ∧ S.length = k)
    ∧ (∀ (bt : String) (axis partners : List Int) (sel : List (List Int)) (comb : List Int),
        comb ∈ expand_combinations bt "NAGASHI" ⟨false, axis, partners, sel, []⟩ →
        ∀ a ∈ axis, a ∈ comb)
    ∧ (∀ (a : Int) (partners : List Int) (sel : List (List Int)),
        expand_combinations "EXACTA" "NAGASHI" ⟨false, [a], partners, sel, []⟩ =
          partners.map (fun p => [a, p]))
    ∧ (∀ (a : Int) (partners : List Int) (sel : List (List Int)), partners.Nodup →
        ∀ comb, comb ∈ expand_combinations "TRIFECTA" "NAGASHI" ⟨false, [a], partners, sel, []⟩
          ↔ ∃ p ∈ partners, ∃ q ∈ partners, p ≠ q ∧ comb = [a, p, q])
    ∧ (∀ (a b : Int) (partners : List Int) (sel : List (List Int)),
        expand_combinations "TRIFECTA" "NAGASHI" ⟨false, [a, b], partners, sel, []⟩ =
          partners.map (fun p => [a, b, p])) := by
  refine ⟨?_, ?_, ?_, ?_, ?_, ?_⟩
  · intro bt axis partners sel h1 h2 hle
    exact expand_nagashi_unordered bt axis partners sel h1 h2 hle
  · intro k partners S
    exact mem_combinations k partners S
  · intro bt axis partners sel comb hcomb
    exact expand_nagashi_includes_axis bt axis partners sel [] comb hcomb
  · intro a partners sel
    exact expand_nagashi_exacta_one a partners sel
  · intro a partners sel hnd comb
    exact expand_nagashi_trifecta_one_mem a partners sel hnd comb
  · intro a b partners sel
    exact expand_nagashi_trifecta_two a b partners sel

/-- Witness for C4 at concrete inputs: a QUINELLA nagashi with axis 5 over
partners 3,8; membership of [3] in the 1-subsets; axis inclusion; EXACTA and
TRIFECTA nagashi over partners 3,8. -/
theorem C4_nagashi_expansion_witness :
    (expand_combinations "QUINELLA" "NAGASHI" ⟨false, [5], [3, 8], [], []⟩ =
      (combinations 1 [3, 8]).map (fun S => [5] ++ S))
    ∧ ([3] ∈ combinations 1 [3, 8] ↔ ([3] : List Int).Sublist [3, 8] ∧ ([3] : List Int).length = 1)
    ∧ (∀ a ∈ ([5] : List Int), a ∈ ([5, 3] : List Int))
    ∧ (expand_combinations "EXACTA" "NAGASHI" ⟨false, [5], [3, 8], [], []⟩ =
        [3, 8].map (fun p => [5, p]))
    ∧ ([5, 3, 8] ∈ expand_combinations "TRIFECTA" "NAGASHI" ⟨false, [5], [3, 8], [], []⟩
        ↔ ∃ p ∈ ([3, 8] : List Int), ∃ q ∈ ([3, 8] : List Int), p ≠ q ∧ [5, 3, 8] = [5, p, q])
    ∧ (expand_combinations "TRIFECTA" "NAGASHI" ⟨false, [5, 7], [3, 8], [], []⟩ =
        [3, 8].map (fun p => [5, 7, p])) := by
  refine ⟨?_, ?_, ?_, ?_, ?_, ?_⟩
  · exact C4_nagashi_expansion.1 "QUINELLA" [5] [3, 8] [] (by decide) (by decide) (by decide)
  · exact C4_nagashi_expansion.2.1 1 [3, 8] [3]
  · exact C4_nagashi_expansion.2.2.1 "QUINELLA" [5] [3, 8] [] [5, 3] (by decide)
  · exact C4_nagashi_expansion.2.2.2.1 5 [3, 8] []
  · exact C4_nagashi_expansion.2.2.2.2.1 5 [3, 8] [] (by decide) [5, 3, 8]
  · exact C4_nagashi_expansion.2.2.2.2.2 5 7 [3, 8] []


/-- Claim C5: a BOX over a pool of n distinct horses expands to n·(n−1)·(n−2)
ordered combinations for TRIFECTA and to C(n,3) unordered combinations for
TRIO. -/
theorem C5_box_combination_counts (pool : List Int) (hnd : pool.Nodup) :
    (expand_combinations "TRIFECTA" "BOX" ⟨false, [], [], [pool], []⟩).length
        = pool.length * (pool.length - 1) * (pool.length - 2)
    ∧ (expand_combinations "TRIO" "BOX" ⟨false, [], [], [pool], []⟩).length
        = Nat.choose pool.length 3 := by
  constructor
  · have he : expand_combinations "TRIFECTA" "BOX" ⟨false, [], [], [pool], []⟩
        = perms 3 pool := by
      simp [expand_combinations, get_combination_r]
    rw [he, perms_length, descFactorial_three]
  · have he : expand_combinations "TRIO" "BOX" ⟨false, [], [], [pool], []⟩
        = combinations 3 pool := by
      simp [expand_combinations, get_combination_r]
    rw [he, combinations_length]

/-- Witness for C5: a BOX over the four distinct horses 1,2,3,4 yields 24
TRIFECTA combinations and 4 TRIO combinations. -/
theorem C5_box_combination_counts_witness :
    (expand_combinations "TRIFECTA" "BOX" ⟨false, [], [], [[1, 2, 3, 4]], []⟩).length = 24
    ∧ (expand_combinations "TRIO" "BOX" ⟨false, [], [], [[1, 2, 3, 4]], []⟩).length = 4 := by
  have h := C5_box_combination_counts [1, 2, 3, 4] (by decide)
  exact ⟨by rw [h.1]; decide, by rw [h.2]; decide⟩

/-- Claim C8 (amended): for every raw content object, the normalized content
satisfies: every digit-only horse-number token inside axis, partners or a
selections group is zero-padded to AT LEAST two digits (tokens shorter than
two digits become exactly two; longer digit tokens are kept whole); the
partners list is the ascending sort of its normalized tokens; the axis list
is sorted ascending exactly when positions is falsy and otherwise keeps its
original order (to stay positionally paired with positions); and each group
inside selections is sorted ascending internally while the order of the
groups themselves is unchanged. -/
theorem C8_normalizer_invariants (c : JObj) :
    ((∀ k, (k = "axis" ∨ k = "partners") → jHas c k = true →
        ∀ vs, jGet (normalize_horse_numbers c) k = some (JVal.arr vs) →
        ∀ s, JVal.str s ∈ vs → pyIsDigitStr s = true → 2 ≤ s.length)
    ∧ (jHas c "selections" = true →
        ∀ gs, jGet (normalize_horse_numbers c) "selections" = some (JVal.arr gs) →
        ∀ g, JVal.arr g ∈ gs → ∀ s, JVal.str s ∈ g → pyIsDigitStr s = true → 2 ≤ s.length))
    ∧ (jHas c "partners" = true →
        ∃ ls : List String, jGet (normalize_horse_numbers c) "partners" =
            some (JVal.arr (ls.map JVal.str))
          ∧ List.Sorted strLeP ls ∧ ls.Perm ((jElems (jGet c "partners")).map normTok))
    ∧ (jTruthy (jGet c "positions") = false → jHas c "axis" = true →
        ∃ ls : List String, jGet (normalize_horse_numbers c) "axis" =
            some (JVal.arr (ls.map JVal.str))
          ∧ List.Sorted strLeP ls ∧ ls.Perm ((jElems (jGet c "axis")).map normTok))
    ∧ (jTruthy (jGet c "positions") = true → jHas c "axis" = true →
        jGet (normalize_horse_numbers c) "axis" =
          some (JVal.arr (((jElems (jGet c "axis")).map normTok).map JVal.str)))
    ∧ (jHas c "selections" = true →
        ∃ lss : List (List String),
          jGet (normalize_horse_numbers c) "selections" =
              some (JVal.arr (lss.map (fun l => JVal.arr (l.map JVal.str))))
            ∧ lss.length = (jElems (jGet c "selections")).length
            ∧ ∀ i (h1 : i < lss.length) (h2 : i < (jElems (jGet c "selections")).length),
                List.Sorted strLeP (lss.get ⟨i, h1⟩)
                ∧ (lss.get ⟨i, h1⟩).Perm
                    ((jElems (some ((jElems (jGet c "selections")).get ⟨i, h2⟩))).map
                      normTok)) := by
  refine ⟨⟨?_, ?_⟩, ?_, ?_, ?_, ?_⟩
  · rintro k (rfl | rfl) hk vs hvs s hsv hdig
    · rw [normalize_axis_get c hk] at hvs
      have hvs2 : vs = process_list (!jTruthy (jGet c "positions"))
          (jElems (jGet c "axis")) := by
        injection hvs with hvs
        injection hvs with hvs
        exact hvs.symm
      subst hvs2
      obtain ⟨x, _, hx⟩ := mem_process_list hsv
      have hsx : s = normTok x := by
        injection hx
      subst hsx
      exact normTok_digit_min_len x hdig
    · rw [normalize_partners_get c hk] at hvs
      have hvs2 : vs = process_list true (jElems (jGet c "partners")) := by
        injection hvs with hvs
        injection hvs with hvs
        exact hvs.symm
      subst hvs2
      obtain ⟨x, _, hx⟩ := mem_process_list hsv
      have hsx : s = normTok x := by
        injection hx
      subst hsx
      exact normTok_digit_min_len x hdig
  · rintro hk gs hgs g hg s hsv hdig
    rw [normalize_selections_get c hk] at hgs
    have hgs2 : gs = (jElems (jGet c "selections")).map
        (fun t => JVal.arr (process_list true (jElems (some t)))) := by
      injection hgs with hgs
      injection hgs with hgs
      exact hgs.symm
    subst hgs2
    obtain ⟨grp, _, hgrp⟩ := List.mem_map.mp hg
    have hgeq : g = process_list true (jElems (some grp)) := by
      injection hgrp with hgrp
      exact hgrp.symm
    subst hgeq
    obtain ⟨x, _, hx⟩ := mem_process_list hsv
    have hsx : s = normTok x := by
      injection hx
    subst hsx
    exact normTok_digit_min_len x hdig
  · intro hk
    obtain ⟨ls, hpe, hsort, hperm⟩ := process_list_sorted_perm (jElems (jGet c "partners"))
    exact ⟨ls, by rw [normalize_partners_get c hk, hpe], hsort, hperm⟩
  · intro hfalse hk
    obtain ⟨ls, hpe, hsort, hperm⟩ := process_list_sorted_perm (jElems (jGet c "axis"))
    refine ⟨ls, ?_, hsort, hperm⟩
    rw [normalize_axis_get c hk, hfalse]
    rw [show (!false) = true from rfl, hpe]
  · intro htrue hk
    rw [normalize_axis_get c hk, htrue]
    rw [show (!true) = false from rfl, process_list_nosort]
  · intro hk
    refine ⟨(jElems (jGet c "selections")).map
      (fun g => List.insertionSort strLeP ((jElems (some g)).map normTok)), ?_, ?_, ?_⟩
    · rw [normalize_selections_get c hk]
      simp [List.map_map, Function.comp, process_list_eq]
    · rw [List.length_map]
    · intro i h1 h2
      have hget : ((jElems (jGet c "selections")).map
          (fun g => List.insertionSort strLeP ((jElems (some g)).map normTok))).get ⟨i, h1⟩ =
          List.insertionSort strLeP
            ((jElems (some ((jElems (jGet c "selections")).get ⟨i, h2⟩))).map normTok) := by
        simp [List.get_eq_getElem, List.getElem_map]
      rw [hget]
      exact ⟨List.sorted_insertionSort _ _, List.perm_insertionSort _ _⟩

/-- Witness for C8 on a concrete raw content object with unpadded tokens,
unsorted partners, positionally paired axis, and two selections groups. -/
theorem C8_normalizer_invariants_witness :
    (∃ ls : List String,
        jGet (normalize_horse_numbers
          [("axis", JVal.arr [JVal.str "9", JVal.str "3"]),
           ("partners", JVal.arr [JVal.str "10", JVal.str "2"]),
           ("selections", JVal.arr [JVal.arr [JVal.str "3", JVal.str "12"],
             JVal.arr [JVal.str "4"]]),
           ("positions", JVal.arr [])]) "partners" =
          some (JVal.arr (ls.map JVal.str))
        ∧ List.Sorted strLeP ls
        ∧ ls.Perm ((jElems (jGet
            [("axis", JVal.arr [JVal.str "9", JVal.str "3"]),
             ("partners", JVal.arr [JVal.str "10", JVal.str "2"]),
             ("selections", JVal.arr [JVal.arr [JVal.str "3", JVal.str "12"],
               JVal.arr [JVal.str "4"]]),
             ("positions", JVal.arr [])] "partners")).map normTok))
    ∧ (∃ ls : List String,
        jGet (normalize_horse_numbers
          [("axis", JVal.arr [JVal.str "9", JVal.str "3"]),
           ("partners", JVal.arr [JVal.str "10", JVal.str "2"]),
           ("selections", JVal.arr [JVal.arr [JVal.str "3", JVal.str "12"],
             JVal.arr [JVal.str "4"]]),
           ("positions", JVal.arr [])]) "axis" =
          some (JVal.arr (ls.map JVal.str))
        ∧ List.Sorted strLeP ls
        ∧ ls.Perm ((jElems (jGet
            [("axis", JVal.arr [JVal.str "9", JVal.str "3"]),
             ("partners", JVal.arr [JVal.str "10", JVal.str "2"]),
             ("selections", JVal.arr [JVal.arr [JVal.str "3", JVal.str "12"],
               JVal.arr [JVal.str "4"]]),
             ("positions", JVal.arr [])] "axis")).map normTok))
    ∧ jGet (normalize_horse_numbers
          [("axis", JVal.arr [JVal.str "9", JVal.str "3"]),
           ("positions", JVal.arr [JVal.num 1, JVal.num 2])]) "axis" =
        some (JVal.arr (((jElems (jGet
          [("axis", JVal.arr [JVal.str "9", JVal.str "3"]),
           ("positions", JVal.arr [JVal.num 1, JVal.num 2])] "axis")).map normTok).map
            JVal.str)) := by
  refine ⟨?_, ?_, ?_⟩
  · exact (C8_normalizer_invariants _).2.1 (by decide)
  · exact (C8_normalizer_invariants _).2.2.1 (by decide) (by decide)
  · exact (C8_normalizer_invariants _).2.2.2.1 (by decide) (by decide)

/-- Counterexample to C8 as stated: the digit-only token "123" passes through
`zfill(2)` unchanged — the normalized content carries a three-character
digit-only horse-number token, so not every digit token is padded to exactly
two digits. -/
theorem C8_counterexample :
    jGet (normalize_horse_numbers
        [("axis", JVal.arr [JVal.str "123"]), ("positions", JVal.arr [])]) "axis" =
      some (JVal.arr [JVal.str "123"])
    ∧ pyIsDigitStr "123" = true
    ∧ ("123" : String).length ≠ 2 := by
  refine ⟨by decide, by decide, by decide⟩


/-- Claim C9: when `total_points` is not supplied (reads as 0), the Normalizer
derives it as `total_cost // amount_per_point` if `amount_per_point > 0` and
leaves it at 0 if `amount_per_point = 0`; the division is guarded, so the
derivation is a total function and never raises. -/
theorem C9_total_points_derivation (tp : Option Int) (cost app : Int)
    (h : tp.getD 0 = 0) :
    (0 < app → derive_total_points tp cost app = Int.fdiv cost app)
    ∧ (app = 0 → derive_total_points tp cost app = 0) := by
  constructor
  · intro hpos
    simp [derive_total_points, h, hpos]
  · intro h0
    simp [derive_total_points, h, h0]

/-- Witness for C9: an unsupplied total_points with cost 1000 and 100 per
point derives 10; with amount_per_point 0 it stays 0. -/
theorem C9_total_points_derivation_witness :
    derive_total_points none 1000 100 = Int.fdiv 1000 100
    ∧ derive_total_points none 1000 0 = 0 :=
  ⟨(C9_total_points_derivation none 1000 100 (by decide)).1 (by decide),
   (C9_total_points_derivation none 1000 0 (by decide)).2 (by decide)⟩

/-- Claim C6: when the official result for a ticket's race is absent or
incomplete — the stored first finisher is falsy, the payout table is missing,
or any of the three finisher ordinals fails integer parsing — the per-race
judgment driver performs no judgment: every ticket row is returned unchanged
(a PENDING ticket stays PENDING with no payout assigned), through an ordinary
code path rather than an exception. -/
theorem C6_pending_without_result (race : RaceRow) (tickets : List TicketRow)
    (h : pyTruthyOptStr race.result_1st = false ∨ race.payout_data = none ∨
         pyInt? (race.result_1st.getD "") = none ∨
         pyInt? (race.result_2nd.getD "") = none ∨
         pyInt? (race.result_3rd.getD "") = none) :
    judge_finished_race race tickets = tickets := by
  cases ha : pyTruthyOptStr race.result_1st with
  | false => simp [judge_finished_race, ha]
  | true =>
    cases hpd : race.payout_data with
    | none => simp [judge_finished_race, hpd]
    | some pd =>
      rcases h with h | h | h | h | h
      · rw [ha] at h
        cases h
      · rw [hpd] at h
        cases h
      · simp [judge_finished_race, ha, hpd, h]
      · cases hp1 : pyInt? (race.result_1st.getD "") <;>
          simp [judge_finished_race, ha, hpd, h, hp1]
      · cases hp1 : pyInt? (race.result_1st.getD "") <;>
          cases hp2 : pyInt? (race.result_2nd.getD "") <;>
            simp [judge_finished_race, ha, hpd, h, hp1, hp2]

/-- Witness for C6: a finished race whose second finisher is missing leaves a
PENDING ticket untouched. -/
theorem C6_pending_without_result_witness :
    judge_finished_race ⟨some "5", none, some "9", some {}⟩
      [⟨⟨"WIN", "NORMAL", ⟨false, [], [], [[1]], []⟩, 100⟩, "PENDING", 0⟩] =
      [⟨⟨"WIN", "NORMAL", ⟨false, [], [], [[1]], []⟩, 100⟩, "PENDING", 0⟩] :=
  C6_pending_without_result _ _ (by decide)

/-- Claim C10: for a NAGASHI ticket of any bet type other than the ordered
EXACTA and TRIFECTA, expansion with `multi = true` returns exactly the same
combination list as expansion with `multi = false`: the multi flag only
changes the expansion of the ordered bet types. -/
theorem C10_multi_noop_for_unordered (bt : String)
    (h1 : bt ≠ "EXACTA") (h2 : bt ≠ "TRIFECTA")
    (axis partners : List Int) (sel : List (List Int)) (pos : List Int) :
    expand_combinations bt "NAGASHI" ⟨true, axis, partners, sel, pos⟩ =
      expand_combinations bt "NAGASHI" ⟨false, axis, partners, sel, pos⟩ := by
  simp [expand_combinations, h1, h2]

/-- Witness for C10: a QUINELLA NAGASHI expands identically with and without
the multi flag. -/
theorem C10_multi_noop_for_unordered_witness :
    expand_combinations "QUINELLA" "NAGASHI" ⟨true, [5], [3, 8], [], []⟩ =
      expand_combinations "QUINELLA" "NAGASHI" ⟨false, [5], [3, 8], [], []⟩ :=
  C10_multi_noop_for_unordered "QUINELLA" (by decide) (by decide) [5] [3, 8] [] []


/-- Claim C1: the claimed general settlement rule never runs.  On the repo's
own test input — a NORMAL WIN ticket on horse 1, 100 yen per point, official
WIN entry [1] paying 200 per 100 — the payout lookup is non-empty, so the
as-called engine (`judge_ticket_run`) raises AttributeError at the first
`content.get` instead of returning the claimed WIN verdict; the dict-level
body `judge_ticket` spells out the verdict the claim (and the repo's test)
expects, ("HIT", 200), but it is unreachable in production. -/
theorem C1_settlement_crash :
    judge_ticket_run ⟨"WIN", "NORMAL", ⟨false, [], [], [[1]], []⟩, 100⟩ 1 2 3
        { WIN := some [⟨[1], 200⟩] } = Except.error PyErr.attributeError
    ∧ getPayoutItems { WIN := some [⟨[1], 200⟩] } "WIN" ≠ []
    ∧ judge_ticket ⟨"WIN", "NORMAL", ⟨false, [], [], [[1]], []⟩, 100⟩ 1 2 3
        { WIN := some [⟨[1], 200⟩] } = ("HIT", 200) := by
  refine ⟨rfl, by decide, by decide⟩

/-- Claim C3: the claimed positional rule never runs.  On the spec's
fixed-position scenario — TRIFECTA NAGASHI, axis [5] at position 1, partners
[3, 8], multi = false, official entry [5, 3, 8] paying 1234 — the payout
lookup is non-empty and the ticket is NAGASHI, so the as-called engine
(`judge_ticket_run`) raises AttributeError at `content.get("multi", False)`
before the positional guard is consulted; the dead helper
`is_hit_nagashi_ordered` does implement the claimed rule (accepting [5, 3, 8]
and rejecting [3, 5, 8]), and the dict-level `judge_ticket` would return the
claimed ("HIT", 1234). -/
theorem C3_positional_crash :
    judge_ticket_run ⟨"TRIFECTA", "NAGASHI", ⟨false, [5], [3, 8], [], [1]⟩, 100⟩ 5 3 8
        { TRIFECTA := some [⟨[5, 3, 8], 1234⟩] } = Except.error PyErr.attributeError
    ∧ is_hit_nagashi_ordered ⟨false, [5], [3, 8], [], [1]⟩ [5, 3, 8] = true
    ∧ is_hit_nagashi_ordered ⟨false, [5], [3, 8], [], [1]⟩ [3, 5, 8] = false
    ∧ judge_ticket ⟨"TRIFECTA", "NAGASHI", ⟨false, [5], [3, 8], [], [1]⟩, 100⟩ 5 3 8
        { TRIFECTA := some [⟨[5, 3, 8], 1234⟩] } = ("HIT", 1234) := by
  exact ⟨rfl, by decide, by decide, by decide⟩

/-- Claim C7 (amended): a ticket whose bet_type is not a known code settles as
LOSE with payout 0 — the payout-table lookup is empty and the early exit fires
before any content access; but a ticket whose buy_method is not a known code
does NOT settle: if its payout list is non-empty the engine raises
AttributeError at `content.get` and never reaches a terminal WIN/LOSE
decision. -/
theorem C7_unknown_codes_run (t : Ticket) (r1 r2 r3 : Int) (pd : PayoutData) :
    (t.bet_type ∉ knownBetTypes →
      judge_ticket_run t r1 r2 r3 pd = Except.ok ("LOSE", 0))
    ∧ (t.buy_type ∉ knownBuyMethods → getPayoutItems pd t.bet_type ≠ [] →
      judge_ticket_run t r1 r2 r3 pd = Except.error PyErr.attributeError) := by
  constructor
  · intro h
    simp [judge_ticket_run, getPayoutItems_unknown pd t.bet_type h]
  · intro _ hne
    have he : (getPayoutItems pd t.bet_type).isEmpty = false := by
      cases hpe : getPayoutItems pd t.bet_type with
      | nil => exact absurd hpe hne
      | cons a l => rfl
    simp [judge_ticket_run, he]

/-- Witness for C7: a NOT_A_BET NORMAL ticket settles LOSE 0 even with a
populated WIN table; a QUINELLA ticket with the unknown method WEIRD and a
non-empty QUINELLA table raises AttributeError. -/
theorem C7_unknown_codes_run_witness :
    ("NOT_A_BET" ∉ knownBetTypes
      ∧ judge_ticket_run ⟨"NOT_A_BET", "NORMAL", ⟨false, [], [], [[1]], []⟩, 100⟩ 1 2 3
          { WIN := some [⟨[1], 250⟩] } = Except.ok ("LOSE", 0))
    ∧ ("WEIRD" ∉ knownBuyMethods
      ∧ getPayoutItems { QUINELLA := some [⟨[1, 2], 540⟩] } "QUINELLA" ≠ []
      ∧ judge_ticket_run ⟨"QUINELLA", "WEIRD", ⟨false, [], [], [[1, 2]], []⟩, 100⟩ 1 2 3
          { QUINELLA := some [⟨[1, 2], 540⟩] } = Except.error PyErr.attributeError) := by
  refine ⟨⟨by decide, ?_⟩, by decide, by decide, ?_⟩
  · exact (C7_unknown_codes_run ⟨"NOT_A_BET", "NORMAL", ⟨false, [], [], [[1]], []⟩, 100⟩
      1 2 3 { WIN := some [⟨[1], 250⟩] }).1 (by decide)
  · exact (C7_unknown_codes_run ⟨"QUINELLA", "WEIRD", ⟨false, [], [], [[1, 2]], []⟩, 100⟩
      1 2 3 { QUINELLA := some [⟨[1, 2], 540⟩] }).2 (by decide) (by decide)

/-- Counterexample to C7 as stated: the unknown-buy-method QUINELLA/WEIRD
ticket with a populated payout table raises AttributeError — it does not
return LOSE with payout 0 and reaches no terminal decision. -/
theorem C7_counterexample :
    "WEIRD" ∉ knownBuyMethods
    ∧ judge_ticket_run ⟨"QUINELLA", "WEIRD", ⟨false, [], [], [[1, 2]], []⟩, 100⟩ 1 2 3
        { QUINELLA := some [⟨[1, 2], 540⟩] } = Except.error PyErr.attributeError
    ∧ judge_ticket_run ⟨"QUINELLA", "WEIRD", ⟨false, [], [], [[1, 2]], []⟩, 100⟩ 1 2 3
        { QUINELLA := some [⟨[1, 2], 540⟩] } ≠ Except.ok ("LOSE", 0) :=
  ⟨by decide, rfl, fun h => Except.noConfusion h⟩

end JraApi
